import Mathlib

/-!
Verification of the personal-finance-display backend store
(`src/backend/src/main.rs`, `src/backend/src/types.rs`).

The Rust backend keeps an `AppData` record (job catalog, work logs, balance
snapshots, two id counters) behind a lock, persists it as pretty-printed JSON
on every mutation, and serves a handful of axum handlers.  This file embeds
the data model and each handler's state transformation as executable Lean
definitions and proves the specified properties about them.

Modelling conventions:
* Rust `i32` ids are modelled as `Int` (debug Rust panics on overflow rather
  than silently wrapping, and no claim depends on wrap-around behaviour).
* Rust `f64` fields are never computed with, only stored and copied, so they
  are modelled as `F64`, an uninterpreted carrier of the 64-bit pattern.
* `String` comparison (`a.date.cmp(&b.date)` in Rust, byte-lexicographic on
  UTF-8) is modelled by `strLt`/`strLe`, codepoint-lexicographic comparison
  of the character list; on valid UTF-8 the two orders coincide.
* `Vec::sort_by`, Rust's stable sort, is modelled by `List.insertionSort`,
  which Mathlib's `Data.List.Sort` shows is a stable sort; stable sorting by
  a total preorder determines the output uniquely.
* The persisted file is modelled at the JSON-value level (`Json` below):
  `serde_json::to_string_pretty` / `from_str` factor through this value, and
  the claims under study do not depend on the concrete text layer.
-/

/-- Byte/codepoint lexicographic "less than" on character lists, the order
underlying Rust's `String::cmp` used by `sort_by(|a, b| a.date.cmp(&b.date))`. -/
def charListLt : List Char → List Char → Bool
  | [], [] => false
  | [], _ :: _ => true
  | _ :: _, [] => false
  | a :: as, b :: bs =>
    if a.toNat < b.toNat then true
    else if b.toNat < a.toNat then false
    else charListLt as bs

/-- Strict lexicographic order on strings (Rust `String` `Ord`). -/
def strLt (a b : String) : Bool := charListLt a.data b.data

/-- Non-strict lexicographic order on strings. -/
def strLe (a b : String) : Bool := !(strLt b a)

/-- Uninterpreted carrier for a Rust `f64`: the 64-bit pattern.  The store
never computes with these fields, it only stores and copies them. -/
structure F64 where
  bits : Nat
deriving DecidableEq, Repr

/-- `types.rs` `Job`. -/
structure Job where
  id : String
  name : String
deriving DecidableEq, Repr

/-- `types.rs` `WorkLog`. -/
structure WorkLog where
  id : Int
  date : String
  job_id : String
  hours : F64
  pay_rate : F64
  tax_rate : F64
  pay_cashed : Bool
deriving DecidableEq, Repr

/-- `types.rs` `NewWorkLog` (request body for creating a work log). -/
structure NewWorkLog where
  date : String
  job_id : String
  hours : F64
  pay_rate : F64
  tax_rate : F64
  pay_cashed : Bool
deriving DecidableEq, Repr

/-- `types.rs` `BalanceSnapshot`. -/
structure BalanceSnapshot where
  id : Int
  date : String
  checking : F64
  credit_available : F64
  credit_limit : F64
  personal_debt : F64
  note : String
deriving DecidableEq, Repr

/-- `types.rs` `NewBalanceSnapshot` (request body for the balance upsert). -/
structure NewBalanceSnapshot where
  date : String
  checking : F64
  credit_available : F64
  credit_limit : F64
  personal_debt : F64
  note : String
deriving DecidableEq, Repr

/-- `types.rs` `FinanceData`: the aggregate that is persisted and served. -/
structure FinanceData where
  jobs : List Job
  work_logs : List WorkLog
  balance_snapshots : List BalanceSnapshot
deriving DecidableEq, Repr

/-- `types.rs` `ApiResponse`. -/
structure ApiResponse where
  ok : Bool
deriving DecidableEq, Repr

/-- `types.rs` `Weather`. -/
structure Weather where
  current_f : Int
  high_f : Int
  low_f : Int
deriving DecidableEq, Repr

/-- The HTTP status codes the handlers in `main.rs` actually produce. -/
inductive StatusCode where
  | OK
  | NOT_FOUND
  | SERVICE_UNAVAILABLE
deriving DecidableEq, Repr

/-- Numeric value of each status code. -/
def StatusCode.toCode : StatusCode → Nat
  | .OK => 200
  | .NOT_FOUND => 404
  | .SERVICE_UNAVAILABLE => 503

/-- A JSON number: `serde_json` distinguishes integer and float numbers. -/
inductive JNum where
  | int (i : Int)
  | float (v : F64)
deriving DecidableEq, Repr

/-- JSON values (`serde_json::Value`), with objects as field lists. -/
inductive Json where
  | null
  | bool (b : Bool)
  | num (n : JNum)
  | str (s : String)
  | arr (items : List Json)
  | obj (fields : List (String × Json))
deriving Repr

/-- Serialization of a `Job` as derived by serde (`camelCase`). -/
def encJob (j : Job) : Json :=
  .obj [("id", .str j.id), ("name", .str j.name)]

/-- Deserialization of a `Job` from the serialized shape. -/
def decJob : Json → Option Job
  | .obj [("id", .str i), ("name", .str n)] => some ⟨i, n⟩
  | _ => none

/-- Serialization of a `WorkLog` as derived by serde (`camelCase`). -/
def encWorkLog (w : WorkLog) : Json :=
  .obj [("id", .num (.int w.id)), ("date", .str w.date), ("jobId", .str w.job_id),
        ("hours", .num (.float w.hours)), ("payRate", .num (.float w.pay_rate)),
        ("taxRate", .num (.float w.tax_rate)), ("payCashed", .bool w.pay_cashed)]

/-- Deserialization of a `WorkLog` from the serialized shape. -/
def decWorkLog : Json → Option WorkLog
  | .obj [("id", .num (.int i)), ("date", .str d), ("jobId", .str j),
          ("hours", .num (.float h)), ("payRate", .num (.float pr)),
          ("taxRate", .num (.float tr)), ("payCashed", .bool pc)] =>
    some ⟨i, d, j, h, pr, tr, pc⟩
  | _ => none

/-- Serialization of a `BalanceSnapshot` as derived by serde (`camelCase`). -/
def encBalanceSnapshot (s : BalanceSnapshot) : Json :=
  .obj [("id", .num (.int s.id)), ("date", .str s.date),
        ("checking", .num (.float s.checking)),
        ("creditAvailable", .num (.float s.credit_available)),
        ("creditLimit", .num (.float s.credit_limit)),
        ("personalDebt", .num (.float s.personal_debt)), ("note", .str s.note)]

/-- Deserialization of a `BalanceSnapshot` from the serialized shape. -/
def decBalanceSnapshot : Json → Option BalanceSnapshot
  | .obj [("id", .num (.int i)), ("date", .str d), ("checking", .num (.float c)),
          ("creditAvailable", .num (.float ca)), ("creditLimit", .num (.float cl)),
          ("personalDebt", .num (.float pd)), ("note", .str n)] =>
    some ⟨i, d, c, ca, cl, pd, n⟩
  | _ => none

/-- Deserialize every element of a JSON array, failing if any element fails. -/
def decList (dec : Json → Option α) : List Json → Option (List α)
  | [] => some []
  | j :: rest =>
    match dec j with
    | none => none
    | some x =>
      match decList dec rest with
      | none => none
      | some xs => some (x :: xs)

/-- Serialization of the whole `FinanceData` aggregate (`serde_json` value of
`to_string_pretty(&data)` in `AppData::save`). -/
def encFinanceData (d : FinanceData) : Json :=
  .obj [("jobs", .arr (d.jobs.map encJob)),
        ("workLogs", .arr (d.work_logs.map encWorkLog)),
        ("balanceSnapshots", .arr (d.balance_snapshots.map encBalanceSnapshot))]

/-- Deserialization of the aggregate (`serde_json::from_str::<FinanceData>`). -/
def decFinanceData : Json → Option FinanceData
  | .obj [("jobs", .arr js), ("workLogs", .arr ws), ("balanceSnapshots", .arr bs)] =>
    match decList decJob js, decList decWorkLog ws, decList decBalanceSnapshot bs with
    | some j, some w, some b => some ⟨j, w, b⟩
    | _, _, _ => none
  | _ => none

/-- The state of the persisted `data.json` path as `AppData::load` can observe
it: missing, unreadable (`fs::read_to_string` fails, so `unwrap_or_default`
yields `""`, which is not JSON), readable but not valid JSON for the aggregate
schema, or a JSON document. -/
inductive FileState where
  | missing
  | unreadable
  | invalidText
  | jsonText (j : Json)

/-- The in-memory store (`struct AppData` in `main.rs`, minus the `PathBuf`,
which is modelled separately as the `FileState` component of the state). -/
structure AppData where
  jobs : List Job
  work_logs : List WorkLog
  balance_snapshots : List BalanceSnapshot
  next_work_log_id : Int
  next_snapshot_id : Int

/-- The hardcoded job catalog from `AppData::load`. -/
def defaultJobs : List Job :=
  [⟨"alborn", "Alborn"⟩, ⟨"museum", "Museum"⟩]

/-- The `(work_logs, balance_snapshots)` pair computed by the first block of
`AppData::load`: empty on a missing file, empty on a read failure (the
content defaults to `""`, which does not deserialize), empty on a parse
failure, and the parsed lists otherwise. -/
def parsedLists : FileState → List WorkLog × List BalanceSnapshot
  | .missing => ([], [])
  | .unreadable => ([], [])
  | .invalidText => ([], [])
  | .jsonText j =>
    match decFinanceData j with
    | some d => (d.work_logs, d.balance_snapshots)
    | none => ([], [])

/-- `AppData::load` (`main.rs` lines 27-56): read and parse the file
fail-soft, recompute both id counters as `max + 1` (`max().unwrap_or(0) + 1`),
and install the hardcoded job catalog. -/
def AppData.load (file : FileState) : AppData :=
  let p := parsedLists file
  { jobs := defaultJobs
    work_logs := p.1
    balance_snapshots := p.2
    next_work_log_id := ((p.1.map WorkLog.id).max?).getD 0 + 1
    next_snapshot_id := ((p.2.map BalanceSnapshot.id).max?).getD 0 + 1 }

/-- The `FinanceData` clone built from the store (used by `save`/`get_data`). -/
def AppData.financeData (d : AppData) : FinanceData :=
  { jobs := d.jobs, work_logs := d.work_logs, balance_snapshots := d.balance_snapshots }

/-- `AppData::save` (`main.rs` lines 58-66): serialize the whole aggregate and
overwrite the file.  The result is the new file state (a swallowed write
failure, which would leave the old file in place, is out of this model). -/
def AppData.save (d : AppData) : FileState :=
  .jsonText (encFinanceData d.financeData)

/-- `get_data` handler (`main.rs` lines 69-76): a read-only snapshot. -/
def get_data (data : AppData) : FinanceData :=
  { jobs := data.jobs, work_logs := data.work_logs, balance_snapshots := data.balance_snapshots }

/-- The sort key relation used by both `sort_by` calls: compare by `date`. -/
def keyLe {α : Type} (dk : α → String) (a b : α) : Prop :=
  strLe (dk a) (dk b) = true

instance {α : Type} (dk : α → String) : DecidableRel (keyLe dk) :=
  fun _ _ => inferInstanceAs (Decidable (_ = true))

/-- `Vec::sort_by(|a, b| a.date.cmp(&b.date))`: a stable sort by date,
modelled as insertion sort (stable sorts by the same preorder agree). -/
def sortByDate {α : Type} (dk : α → String) (l : List α) : List α :=
  l.insertionSort (keyLe dk)

/-- `create_work_log` handler (`main.rs` lines 78-100): build the record with
the next id, bump the counter, push, stable-sort by date, save. -/
def create_work_log (s : AppData × FileState) (new_log : NewWorkLog) :
    (StatusCode × ApiResponse) × AppData × FileState :=
  let data := s.1
  let log : WorkLog :=
    { id := data.next_work_log_id
      date := new_log.date
      job_id := new_log.job_id
      hours := new_log.hours
      pay_rate := new_log.pay_rate
      tax_rate := new_log.tax_rate
      pay_cashed := new_log.pay_cashed }
  let data' :=
    { data with
      next_work_log_id := data.next_work_log_id + 1
      work_logs := sortByDate WorkLog.date (data.work_logs ++ [log]) }
  ((.OK, ⟨true⟩), data', data'.save)

/-- `delete_work_log` handler (`main.rs` lines 102-117): retain the other
entries; if the length is unchanged answer 404 without saving, else save. -/
def delete_work_log (s : AppData × FileState) (i : Int) :
    (StatusCode × ApiResponse) × AppData × FileState :=
  let data := s.1
  let retained := data.work_logs.filter (fun w => w.id != i)
  if retained.length = data.work_logs.length then
    ((.NOT_FOUND, ⟨false⟩), data, s.2)
  else
    let data' := { data with work_logs := retained }
    ((.OK, ⟨true⟩), data', data'.save)

/-- The in-place overwrite of the first snapshot whose date matches, performed
by `iter_mut().find(|s| s.date == new_snapshot.date)` in
`create_balance_snapshot`: only the five value fields change; `id`, `date`
and the position are untouched. -/
def overwriteSnapshot (ns : NewBalanceSnapshot) : List BalanceSnapshot → List BalanceSnapshot
  | [] => []
  | s :: rest =>
    if s.date = ns.date then
      { s with
        checking := ns.checking
        credit_available := ns.credit_available
        credit_limit := ns.credit_limit
        personal_debt := ns.personal_debt
        note := ns.note } :: rest
    else s :: overwriteSnapshot ns rest

/-- `create_balance_snapshot` handler (`main.rs` lines 119-150): overwrite the
existing snapshot for the date in place if one exists, otherwise insert a new
record with the next id and stable-sort by date; save on both paths. -/
def create_balance_snapshot (s : AppData × FileState) (new_snapshot : NewBalanceSnapshot) :
    (StatusCode × ApiResponse) × AppData × FileState :=
  let data := s.1
  let data' :=
    if data.balance_snapshots.any (fun b => b.date == new_snapshot.date) then
      { data with balance_snapshots := overwriteSnapshot new_snapshot data.balance_snapshots }
    else
      let snapshot : BalanceSnapshot :=
        { id := data.next_snapshot_id
          date := new_snapshot.date
          checking := new_snapshot.checking
          credit_available := new_snapshot.credit_available
          credit_limit := new_snapshot.credit_limit
          personal_debt := new_snapshot.personal_debt
          note := new_snapshot.note }
      { data with
        next_snapshot_id := data.next_snapshot_id + 1
        balance_snapshots := sortByDate BalanceSnapshot.date (data.balance_snapshots ++ [snapshot]) }
  ((.OK, ⟨true⟩), data', data'.save)

/-- `delete_balance_snapshot` handler (`main.rs` lines 152-167). -/
def delete_balance_snapshot (s : AppData × FileState) (i : Int) :
    (StatusCode × ApiResponse) × AppData × FileState :=
  let data := s.1
  let retained := data.balance_snapshots.filter (fun b => b.id != i)
  if retained.length = data.balance_snapshots.length then
    ((.NOT_FOUND, ⟨false⟩), data, s.2)
  else
    let data' := { data with balance_snapshots := retained }
    ((.OK, ⟨true⟩), data', data'.save)

/-- The conversions between `f64` and integers used by `get_weather`.  No
claim depends on their numeric behaviour, so they are abstract parameters. -/
structure FloatOps where
  intToF64 : Int → F64
  f64ToI32 : F64 → Int

/-- What the weather upstream can produce, as `get_weather` observes it:
`reqwest::get` fails, `response.json()` fails, or a JSON body arrives. -/
inductive UpstreamResult where
  | netError
  | badBody
  | body (j : Json)

/-- Field lookup in a JSON object (`serde_json` `Value` indexing by key). -/
def lookupField (key : String) : List (String × Json) → Option Json
  | [] => none
  | (k, v) :: rest => if k = key then some v else lookupField key rest

/-- `value["key"]`: `Null` on a missing field or a non-object. -/
def Json.idx (j : Json) (key : String) : Json :=
  match j with
  | .obj fields => (lookupField key fields).getD .null
  | _ => .null

/-- `value[i]`: `Null` on an out-of-range index or a non-array. -/
def Json.atIdx (j : Json) (i : Nat) : Json :=
  match j with
  | .arr items => (items.get? i).getD .null
  | _ => .null

/-- `Value::as_f64`: floats directly, integers converted. -/
def Json.asF64 (ops : FloatOps) : Json → Option F64
  | .num (.float v) => some v
  | .num (.int i) => some (ops.intToF64 i)
  | _ => none

/-- The bit pattern of `0.0`. -/
def f64Zero : F64 := ⟨0⟩

/-- The three field extractions of `get_weather` (`main.rs` lines 188-190):
`json[..][..].as_f64().unwrap_or(0.0) as i32`. -/
def extractWeather (ops : FloatOps) (j : Json) : Weather :=
  { current_f := ops.f64ToI32 ((Json.asF64 ops ((j.idx ("current_weather")).idx ("temperature"))).getD f64Zero)
    high_f := ops.f64ToI32 ((Json.asF64 ops (((j.idx ("daily")).idx ("temperature_2m_max")).atIdx 0)).getD f64Zero)
    low_f := ops.f64ToI32 ((Json.asF64 ops (((j.idx ("daily")).idx ("temperature_2m_min")).atIdx 0)).getD f64Zero) }

/-- `get_weather` handler (`main.rs` lines 169-193): 503 with a zeroed reading
on a network or body-parse failure, 200 with the extracted reading otherwise. -/
def get_weather (ops : FloatOps) (upstream : UpstreamResult) : StatusCode × Weather :=
  match upstream with
  | .netError => (.SERVICE_UNAVAILABLE, ⟨0, 0, 0⟩)
  | .badBody => (.SERVICE_UNAVAILABLE, ⟨0, 0, 0⟩)
  | .body j => (.OK, extractWeather ops j)

/-- One mutating API call. -/
inductive Op where
  | createWL (input : NewWorkLog)
  | deleteWL (i : Int)
  | upsertBS (input : NewBalanceSnapshot)
  | deleteBS (i : Int)

/-- The state transformation of one mutating call (response discarded). -/
def runOp (s : AppData × FileState) : Op → AppData × FileState
  | .createWL n => (create_work_log s n).2
  | .deleteWL i => (delete_work_log s i).2
  | .upsertBS n => (create_balance_snapshot s n).2
  | .deleteBS i => (delete_balance_snapshot s i).2

/-- Run a sequence of mutating calls. -/
def run (s : AppData × FileState) : List Op → AppData × FileState
  | [] => s
  | op :: rest => run (runOp s op) rest

/-- The `WorkLog` ids assigned by the `createWL` calls of a run, in call
order (each `create_work_log` stores `next_work_log_id` in the new record). -/
def assignedWLIds (s : AppData × FileState) : List Op → List Int
  | [] => []
  | .createWL n :: rest => s.1.next_work_log_id :: assignedWLIds (runOp s (.createWL n)) rest
  | .deleteWL i :: rest => assignedWLIds (runOp s (.deleteWL i)) rest
  | .upsertBS n :: rest => assignedWLIds (runOp s (.upsertBS n)) rest
  | .deleteBS i :: rest => assignedWLIds (runOp s (.deleteBS i)) rest

/-- The `BalanceSnapshot` ids assigned by the inserting `upsertBS` calls of a
run, in call order (the overwrite path assigns no id). -/
def assignedBSIds (s : AppData × FileState) : List Op → List Int
  | [] => []
  | .createWL n :: rest => assignedBSIds (runOp s (.createWL n)) rest
  | .deleteWL i :: rest => assignedBSIds (runOp s (.deleteWL i)) rest
  | .upsertBS n :: rest =>
    if s.1.balance_snapshots.any (fun b => b.date == n.date) then
      assignedBSIds (runOp s (.upsertBS n)) rest
    else
      s.1.next_snapshot_id :: assignedBSIds (runOp s (.upsertBS n)) rest
  | .deleteBS i :: rest => assignedBSIds (runOp s (.deleteBS i)) rest

/-! ### Order lemmas for the string comparison -/

theorem charListLt_cons_iff {a b : Char} {as bs : List Char} :
    charListLt (a :: as) (b :: bs) = true ↔
      (a.toNat < b.toNat ∨ (a.toNat = b.toNat ∧ charListLt as bs = true)) := by
  simp only [charListLt]
  split_ifs with h h'
  · simp [h]
  · simp
    omega
  · have : a.toNat = b.toNat := by omega
    simp [this]

theorem char_toNat_inj {a b : Char} (h : a.toNat = b.toNat) : a = b := by
  have := congrArg Char.ofNat h
  rwa [Char.ofNat_toNat, Char.ofNat_toNat] at this

theorem charListLt_irrefl : ∀ l, charListLt l l = false
  | [] => rfl
  | a :: as => by
    simp only [charListLt, Nat.lt_irrefl, if_false]
    exact charListLt_irrefl as

theorem charListLt_eq_of_not : ∀ {l₁ l₂ : List Char}, charListLt l₁ l₂ = false →
    charListLt l₂ l₁ = false → l₁ = l₂
  | [], [], _, _ => rfl
  | [], _ :: _, h₁, _ => by simp [charListLt] at h₁
  | _ :: _, [], _, h₂ => by simp [charListLt] at h₂
  | a :: as, b :: bs, h₁, h₂ => by
    rw [Bool.eq_false_iff, Ne, charListLt_cons_iff] at h₁ h₂
    push_neg at h₁ h₂
    have hab : a.toNat = b.toNat := by omega
    have h₁' := h₁.2 hab
    have h₂' := h₂.2 hab.symm
    have hchar : a = b := char_toNat_inj hab
    have htail : as = bs := charListLt_eq_of_not (by simpa using h₁') (by simpa using h₂')
    rw [hchar, htail]

theorem charListLt_trans : ∀ {l₁ l₂ l₃ : List Char}, charListLt l₁ l₂ = true →
    charListLt l₂ l₃ = true → charListLt l₁ l₃ = true
  | [], _ :: _, [], _, h₂ => by simp [charListLt] at h₂
  | [], _, _ :: _, _, _ => by simp [charListLt]
  | [], [], [], h₁, _ => h₁
  | _ :: _, [], _, h₁, _ => by simp [charListLt] at h₁
  | _ :: _, _ :: _, [], _, h₂ => by simp [charListLt] at h₂
  | a :: as, b :: bs, c :: cs, h₁, h₂ => by
    rw [charListLt_cons_iff] at h₁ h₂ ⊢
    rcases h₁ with h₁ | ⟨he₁, hr₁⟩
    · rcases h₂ with h₂ | ⟨he₂, _⟩
      · exact Or.inl (Nat.lt_trans h₁ h₂)
      · exact Or.inl (he₂ ▸ h₁)
    · rcases h₂ with h₂ | ⟨he₂, hr₂⟩
      · exact Or.inl (he₁ ▸ h₂)
      · exact Or.inr ⟨he₁.trans he₂, charListLt_trans hr₁ hr₂⟩

theorem string_data_inj {s₁ s₂ : String} (h : s₁.data = s₂.data) : s₁ = s₂ :=
  congrArg String.mk h

theorem strLt_asymm {a b : String} (h : strLt a b = true) : strLt b a = false := by
  by_contra hc
  rw [Bool.not_eq_false] at hc
  have := charListLt_trans h hc
  rw [charListLt_irrefl] at this
  exact Bool.false_ne_true this

theorem strLe_total (a b : String) : strLe a b = true ∨ strLe b a = true := by
  by_cases h : strLt b a = true
  · exact Or.inr (by simp [strLe, strLt_asymm h])
  · exact Or.inl (by simp [strLe, Bool.not_eq_true] at h ⊢; exact h)

theorem strLe_iff {a b : String} : strLe a b = true ↔ (strLt a b = true ∨ a = b) := by
  constructor
  · intro h
    simp only [strLe, Bool.not_eq_true'] at h
    by_cases h' : strLt a b = true
    · exact Or.inl h'
    · rw [Bool.not_eq_true] at h'
      exact Or.inr (string_data_inj (charListLt_eq_of_not h' h))
  · rintro (h | rfl)
    · simp [strLe, strLt_asymm h]
    · simp [strLe, strLt, charListLt_irrefl]

theorem strLe_trans {a b c : String} (h₁ : strLe a b = true) (h₂ : strLe b c = true) :
    strLe a c = true := by
  rw [strLe_iff] at h₁ h₂ ⊢
  rcases h₁ with h₁ | rfl
  · rcases h₂ with h₂ | rfl
    · exact Or.inl (charListLt_trans h₁ h₂)
    · exact Or.inl h₁
  · exact h₂

theorem strLt_of_lt_of_le {a b c : String} (h₁ : strLt a b = true) (h₂ : strLe b c = true) :
    strLt a c = true := by
  rcases strLe_iff.mp h₂ with h | rfl
  · exact charListLt_trans h₁ h
  · exact h₁

theorem strLt_of_le_of_lt {a b c : String} (h₁ : strLe a b = true) (h₂ : strLt b c = true) :
    strLt a c = true := by
  rcases strLe_iff.mp h₁ with h | rfl
  · exact charListLt_trans h h₂
  · exact h₂

theorem strLt_ne {a b : String} (h : strLt a b = true) : a ≠ b := by
  rintro rfl
  rw [strLt, charListLt_irrefl] at h
  exact Bool.false_ne_true h

theorem strLe_of_lt {a b : String} (h : strLt a b = true) : strLe a b = true :=
  strLe_iff.mpr (Or.inl h)

theorem strLe_refl (a : String) : strLe a a = true :=
  strLe_iff.mpr (Or.inr rfl)

theorem strLt_of_le_of_ne {a b : String} (h : strLe a b = true) (hne : a ≠ b) :
    strLt a b = true :=
  (strLe_iff.mp h).resolve_right hne

instance {α : Type} (dk : α → String) : IsTotal α (keyLe dk) :=
  ⟨fun a b => strLe_total (dk a) (dk b)⟩

instance {α : Type} (dk : α → String) : IsTrans α (keyLe dk) :=
  ⟨fun _ _ _ hab hbc => strLe_trans hab hbc⟩

/-! ### Stability of the date sort

`keyLex dk ik` is the strict "(date, id) lexicographic" order.  A collection
that is `Pairwise (keyLex dk ik)` is sorted non-decreasing by date with
equal-date entries in strictly increasing id order; this is the shape that
`sort_by` preserves because ids grow in insertion order. -/

def keyLex {α : Type} (dk : α → String) (ik : α → Int) (a b : α) : Prop :=
  strLt (dk a) (dk b) = true ∨ (dk a = dk b ∧ ik a < ik b)

theorem keyLex_trans {α : Type} {dk : α → String} {ik : α → Int} {a b c : α}
    (h₁ : keyLex dk ik a b) (h₂ : keyLex dk ik b c) : keyLex dk ik a c := by
  rcases h₁ with h₁ | ⟨he₁, hi₁⟩
  · rcases h₂ with h₂ | ⟨he₂, _⟩
    · exact Or.inl (charListLt_trans h₁ h₂)
    · exact Or.inl (he₂ ▸ h₁)
  · rcases h₂ with h₂ | ⟨he₂, hi₂⟩
    · exact Or.inl (he₁ ▸ h₂)
    · exact Or.inr ⟨he₁.trans he₂, lt_trans hi₁ hi₂⟩

theorem keyLex_le {α : Type} {dk : α → String} {ik : α → Int} {a b : α}
    (h : keyLex dk ik a b) : keyLe dk a b := by
  rcases h with h | ⟨he, _⟩
  · exact strLe_of_lt h
  · show strLe (dk a) (dk b) = true
    rw [← he]
    exact strLe_refl (dk a)

theorem orderedInsert_keyLex {α : Type} {dk : α → String} {ik : α → Int} (a : α) :
    ∀ m : List α, m.Pairwise (keyLex dk ik) →
      (∀ b ∈ m, dk a = dk b → ik a < ik b) →
      (m.orderedInsert (keyLe dk) a).Pairwise (keyLex dk ik)
  | [], _, _ => List.pairwise_singleton _ a
  | b :: m, hp, hid => by
    rw [List.orderedInsert]
    rcases List.pairwise_cons.mp hp with ⟨hb, hm⟩
    by_cases hab : keyLe dk a b
    · rw [if_pos hab]
      refine List.pairwise_cons.mpr ⟨?_, hp⟩
      intro c hc
      have hlexab : keyLex dk ik a b := by
        by_cases he : dk a = dk b
        · exact Or.inr ⟨he, hid b (List.mem_cons_self b m) he⟩
        · exact Or.inl (strLt_of_le_of_ne hab he)
      rcases List.mem_cons.mp hc with rfl | hc
      · exact hlexab
      · exact keyLex_trans hlexab (hb _ hc)
    · rw [if_neg hab]
      have hba : strLt (dk b) (dk a) = true := by
        simp only [keyLe, Bool.not_eq_true] at hab
        simpa [strLe, Bool.not_eq_true'] using hab
      refine List.pairwise_cons.mpr ⟨?_, ?_⟩
      · intro c hc
        rcases (List.mem_orderedInsert (keyLe dk)).mp hc with rfl | hc
        · exact Or.inl hba
        · exact hb _ hc
      · exact orderedInsert_keyLex a m hm (fun c hc he => hid c (List.mem_cons_of_mem b hc) he)

theorem insertionSort_keyLex {α : Type} {dk : α → String} {ik : α → Int} :
    ∀ m : List α, m.Pairwise (fun a b => dk a = dk b → ik a < ik b) →
      (m.insertionSort (keyLe dk)).Pairwise (keyLex dk ik)
  | [], _ => List.Pairwise.nil
  | a :: m, hp => by
    rw [List.insertionSort]
    rcases List.pairwise_cons.mp hp with ⟨ha, hm⟩
    refine orderedInsert_keyLex a _ (insertionSort_keyLex m hm) ?_
    intro b hb he
    exact ha b ((List.perm_insertionSort (keyLe dk) m).mem_iff.mp hb) he

/-! ### Serialization round-trip -/

theorem decJob_encJob (j : Job) : decJob (encJob j) = some j := rfl

theorem decWorkLog_encWorkLog (w : WorkLog) : decWorkLog (encWorkLog w) = some w := rfl

theorem decBalanceSnapshot_encBalanceSnapshot (s : BalanceSnapshot) :
    decBalanceSnapshot (encBalanceSnapshot s) = some s := rfl

theorem decList_enc {α : Type} {enc : α → Json} {dec : Json → Option α}
    (h : ∀ x, dec (enc x) = some x) : ∀ l : List α, decList dec (l.map enc) = some l := by
  intro l
  induction l with
  | nil => rfl
  | cons x xs ih => simp [decList, h x, ih]

theorem decFinanceData_encFinanceData (d : FinanceData) :
    decFinanceData (encFinanceData d) = some d := by
  simp [encFinanceData, decFinanceData, decList_enc decJob_encJob,
    decList_enc decWorkLog_encWorkLog, decList_enc decBalanceSnapshot_encBalanceSnapshot]

/-! ### Bounds from the max-id computation -/

theorem le_foldl_max : ∀ (l : List Int) (a : Int), a ≤ l.foldl max a
  | [], a => le_refl a
  | x :: xs, a => le_trans (le_max_left a x) (le_foldl_max xs (max a x))

theorem mem_le_foldl_max : ∀ (l : List Int) (a x : Int), x ∈ l → x ≤ l.foldl max a
  | [], _, _, hx => absurd hx (List.not_mem_nil _)
  | y :: ys, a, x, hx => by
    rcases List.mem_cons.mp hx with rfl | hx
    · exact le_trans (le_max_right a x) (le_foldl_max ys (max a x))
    · exact mem_le_foldl_max ys (max a y) x hx

theorem mem_le_max?_getD {l : List Int} {x : Int} (hx : x ∈ l) (d : Int) :
    x ≤ l.max?.getD d := by
  cases l with
  | nil => exact absurd hx (List.not_mem_nil x)
  | cons y ys =>
    rw [List.max?_cons', Option.getD_some]
    rcases List.mem_cons.mp hx with rfl | hx
    · exact le_foldl_max ys x
    · exact mem_le_foldl_max ys y x hx

/-- Every id of a freshly loaded collection is strictly below the recomputed
counter: `max().unwrap_or(0) + 1` exceeds every element. -/
theorem load_id_lt_next (file : FileState) :
    (∀ w ∈ (AppData.load file).work_logs, w.id < (AppData.load file).next_work_log_id) ∧
    (∀ b ∈ (AppData.load file).balance_snapshots,
      b.id < (AppData.load file).next_snapshot_id) := by
  constructor
  · intro w hw
    have : w.id ≤ (((parsedLists file).1.map WorkLog.id).max?).getD 0 :=
      mem_le_max?_getD (List.mem_map_of_mem WorkLog.id hw) 0
    simpa [AppData.load] using lt_of_le_of_lt this (lt_add_one _)
  · intro b hb
    have : b.id ≤ (((parsedLists file).2.map BalanceSnapshot.id).max?).getD 0 :=
      mem_le_max?_getD (List.mem_map_of_mem BalanceSnapshot.id hb) 0
    simpa [AppData.load] using lt_of_le_of_lt this (lt_add_one _)

/-! ### Per-operation state facts -/

theorem create_work_log_next (s : AppData × FileState) (n : NewWorkLog) :
    (create_work_log s n).2.1.next_work_log_id = s.1.next_work_log_id + 1 := rfl

theorem create_work_log_next_bs (s : AppData × FileState) (n : NewWorkLog) :
    (create_work_log s n).2.1.next_snapshot_id = s.1.next_snapshot_id := rfl

theorem create_work_log_bs (s : AppData × FileState) (n : NewWorkLog) :
    (create_work_log s n).2.1.balance_snapshots = s.1.balance_snapshots := rfl

theorem delete_work_log_next (s : AppData × FileState) (i : Int) :
    (delete_work_log s i).2.1.next_work_log_id = s.1.next_work_log_id := by
  simp only [delete_work_log]
  split <;> rfl

theorem delete_work_log_next_bs (s : AppData × FileState) (i : Int) :
    (delete_work_log s i).2.1.next_snapshot_id = s.1.next_snapshot_id := by
  simp only [delete_work_log]
  split <;> rfl

theorem delete_work_log_bs (s : AppData × FileState) (i : Int) :
    (delete_work_log s i).2.1.balance_snapshots = s.1.balance_snapshots := by
  simp only [delete_work_log]
  split <;> rfl

theorem delete_work_log_logs (s : AppData × FileState) (i : Int) :
    (delete_work_log s i).2.1.work_logs = s.1.work_logs ∨
      (delete_work_log s i).2.1.work_logs = s.1.work_logs.filter (fun w => w.id != i) := by
  simp only [delete_work_log]
  split
  · exact Or.inl rfl
  · exact Or.inr rfl

theorem create_balance_snapshot_logs (s : AppData × FileState) (n : NewBalanceSnapshot) :
    (create_balance_snapshot s n).2.1.work_logs = s.1.work_logs := by
  simp only [create_balance_snapshot]
  split <;> rfl

theorem create_balance_snapshot_next_wl (s : AppData × FileState) (n : NewBalanceSnapshot) :
    (create_balance_snapshot s n).2.1.next_work_log_id = s.1.next_work_log_id := by
  simp only [create_balance_snapshot]
  split <;> rfl

theorem create_balance_snapshot_next_bs (s : AppData × FileState) (n : NewBalanceSnapshot) :
    s.1.next_snapshot_id ≤ (create_balance_snapshot s n).2.1.next_snapshot_id := by
  simp only [create_balance_snapshot]
  split
  · exact le_refl _
  · exact le_of_lt (lt_add_one _)

theorem delete_balance_snapshot_logs (s : AppData × FileState) (i : Int) :
    (delete_balance_snapshot s i).2.1.work_logs = s.1.work_logs := by
  simp only [delete_balance_snapshot]
  split <;> rfl

theorem delete_balance_snapshot_next_wl (s : AppData × FileState) (i : Int) :
    (delete_balance_snapshot s i).2.1.next_work_log_id = s.1.next_work_log_id := by
  simp only [delete_balance_snapshot]
  split <;> rfl

theorem delete_balance_snapshot_next_bs (s : AppData × FileState) (i : Int) :
    (delete_balance_snapshot s i).2.1.next_snapshot_id = s.1.next_snapshot_id := by
  simp only [delete_balance_snapshot]
  split <;> rfl

theorem runOp_next_wl_mono (s : AppData × FileState) (op : Op) :
    s.1.next_work_log_id ≤ (runOp s op).1.next_work_log_id := by
  cases op with
  | createWL n => rw [runOp, create_work_log_next]; exact le_of_lt (lt_add_one _)
  | deleteWL i => rw [runOp, delete_work_log_next]
  | upsertBS n => rw [runOp, create_balance_snapshot_next_wl]
  | deleteBS i => rw [runOp, delete_balance_snapshot_next_wl]

theorem runOp_next_bs_mono (s : AppData × FileState) (op : Op) :
    s.1.next_snapshot_id ≤ (runOp s op).1.next_snapshot_id := by
  cases op with
  | createWL n => rw [runOp, create_work_log_next_bs]
  | deleteWL i => rw [runOp, delete_work_log_next_bs]
  | upsertBS n => exact create_balance_snapshot_next_bs s n
  | deleteBS i => rw [runOp, delete_balance_snapshot_next_bs]

/-! ### The work-log collection invariant -/

/-- Shape invariant of the store's work logs: (date, id)-lexicographically
sorted, and every id strictly below the counter. -/
def WLShape (d : AppData) : Prop :=
  d.work_logs.Pairwise (keyLex WorkLog.date WorkLog.id) ∧
  ∀ w ∈ d.work_logs, w.id < d.next_work_log_id

theorem keyLex_date_imp_id {α : Type} {dk : α → String} {ik : α → Int} {a b : α}
    (h : keyLex dk ik a b) : dk a = dk b → ik a < ik b := by
  intro he
  rcases h with h | ⟨_, hi⟩
  · exact absurd he (strLt_ne h)
  · exact hi

theorem WLShape_create (s : AppData × FileState) (n : NewWorkLog) (h : WLShape s.1) :
    WLShape (create_work_log s n).2.1 := by
  rcases h with ⟨hlex, hid⟩
  constructor
  · show (sortByDate WorkLog.date (s.1.work_logs ++ [_])).Pairwise _
    apply insertionSort_keyLex
    rw [List.pairwise_append]
    refine ⟨hlex.imp keyLex_date_imp_id, List.pairwise_singleton _ _, ?_⟩
    intro a ha b hb _
    rw [List.mem_singleton] at hb
    subst hb
    exact hid a ha
  · intro w hw
    rw [create_work_log_next]
    have hmem : w ∈ s.1.work_logs ++ [_] :=
      (List.perm_insertionSort (keyLe WorkLog.date) _).mem_iff.mp hw
    rcases List.mem_append.mp hmem with hw' | hw'
    · exact lt_trans (hid w hw') (lt_add_one _)
    · rw [List.mem_singleton] at hw'
      subst hw'
      exact lt_add_one _
theorem runOp_WLShape (s : AppData × FileState) (op : Op) (h : WLShape s.1) :
    WLShape (runOp s op).1 := by
  cases op with
  | createWL n => exact WLShape_create s n h
  | deleteWL i =>
    rcases h with ⟨hlex, hid⟩
    constructor
    · rcases delete_work_log_logs s i with he | he <;> rw [runOp, he]
      · exact hlex
      · exact hlex.sublist (List.filter_sublist _)
    · intro w hw
      rw [runOp, delete_work_log_next]
      rcases delete_work_log_logs s i with he | he <;> rw [runOp, he] at hw
      · exact hid w hw
      · exact hid w (List.mem_of_mem_filter hw)
  | upsertBS n =>
    rcases h with ⟨hlex, hid⟩
    constructor
    · rw [runOp, create_balance_snapshot_logs]
      exact hlex
    · intro w hw
      rw [runOp, create_balance_snapshot_logs] at hw
      rw [runOp, create_balance_snapshot_next_wl]
      exact hid w hw
  | deleteBS i =>
    rcases h with ⟨hlex, hid⟩
    constructor
    · rw [runOp, delete_balance_snapshot_logs]
      exact hlex
    · intro w hw
      rw [runOp, delete_balance_snapshot_logs] at hw
      rw [runOp, delete_balance_snapshot_next_wl]
      exact hid w hw

theorem run_WLShape (ops : List Op) (s : AppData × FileState) (h : WLShape s.1) :
    WLShape (run s ops).1 := by
  induction ops generalizing s with
  | nil => exact h
  | cons op rest ih => exact ih (runOp s op) (runOp_WLShape s op h)

theorem load_WLShape (file : FileState) (fs : FileState)
    (h : (AppData.load file).work_logs.Pairwise (keyLex WorkLog.date WorkLog.id)) :
    WLShape (AppData.load file, fs).1 :=
  ⟨h, (load_id_lt_next file).1⟩

/-! ### Created records and assigned ids -/

/-- The record `create_work_log` builds from the current counter and input. -/
def newWL (d : AppData) (n : NewWorkLog) : WorkLog :=
  { id := d.next_work_log_id
    date := n.date
    job_id := n.job_id
    hours := n.hours
    pay_rate := n.pay_rate
    tax_rate := n.tax_rate
    pay_cashed := n.pay_cashed }

theorem create_work_log_logs (s : AppData × FileState) (n : NewWorkLog) :
    (create_work_log s n).2.1.work_logs =
      sortByDate WorkLog.date (s.1.work_logs ++ [newWL s.1 n]) := rfl

/-- The full `WorkLog` records constructed by the `createWL` calls of a run,
in call order. -/
def createdWLs (s : AppData × FileState) : List Op → List WorkLog
  | [] => []
  | .createWL n :: rest => newWL s.1 n :: createdWLs (runOp s (.createWL n)) rest
  | .deleteWL i :: rest => createdWLs (runOp s (.deleteWL i)) rest
  | .upsertBS n :: rest => createdWLs (runOp s (.upsertBS n)) rest
  | .deleteBS i :: rest => createdWLs (runOp s (.deleteBS i)) rest

/-- Every work log present after a run was present initially or was created
by one of the run's `createWL` calls. -/
theorem run_mem_created : ∀ (ops : List Op) (s : AppData × FileState) (w : WorkLog),
    w ∈ (run s ops).1.work_logs → w ∈ s.1.work_logs ∨ w ∈ createdWLs s ops
  | [], _, _, hw => Or.inl hw
  | .createWL n :: rest, s, w, hw => by
    rcases run_mem_created rest (runOp s (.createWL n)) w hw with h | h
    · rw [runOp, create_work_log_logs] at h
      have hmem := (List.perm_insertionSort (keyLe WorkLog.date) _).mem_iff.mp h
      rcases List.mem_append.mp hmem with h' | h'
      · exact Or.inl h'
      · rw [List.mem_singleton] at h'
        exact Or.inr (by rw [createdWLs]; exact h' ▸ List.mem_cons_self _ _)
    · exact Or.inr (by rw [createdWLs]; exact List.mem_cons_of_mem _ h)
  | .deleteWL i :: rest, s, w, hw => by
    rcases run_mem_created rest (runOp s (.deleteWL i)) w hw with h | h
    · rcases delete_work_log_logs s i with he | he <;> rw [runOp, he] at h
      · exact Or.inl h
      · exact Or.inl (List.mem_of_mem_filter h)
    · exact Or.inr h
  | .upsertBS n :: rest, s, w, hw => by
    rcases run_mem_created rest (runOp s (.upsertBS n)) w hw with h | h
    · rw [runOp, create_balance_snapshot_logs] at h
      exact Or.inl h
    · exact Or.inr h
  | .deleteBS i :: rest, s, w, hw => by
    rcases run_mem_created rest (runOp s (.deleteBS i)) w hw with h | h
    · rw [runOp, delete_balance_snapshot_logs] at h
      exact Or.inl h
    · exact Or.inr h

/-- The created records carry strictly increasing ids, all at or above the
counter at the start of the run. -/
theorem createdWLs_ids : ∀ (ops : List Op) (s : AppData × FileState),
    (createdWLs s ops).Pairwise (fun a b => a.id < b.id) ∧
    ∀ w ∈ createdWLs s ops, s.1.next_work_log_id ≤ w.id
  | [], _ => ⟨List.Pairwise.nil, fun _ hw => absurd hw (List.not_mem_nil _)⟩
  | .createWL n :: rest, s => by
    obtain ⟨hp, hlb⟩ := createdWLs_ids rest (runOp s (.createWL n))
    have hnext : (runOp s (.createWL n)).1.next_work_log_id = s.1.next_work_log_id + 1 :=
      create_work_log_next s n
    rw [createdWLs]
    constructor
    · refine List.pairwise_cons.mpr ⟨?_, hp⟩
      intro w hw
      have := hlb w hw
      rw [hnext] at this
      show s.1.next_work_log_id < w.id
      omega
    · intro w hw
      rcases List.mem_cons.mp hw with rfl | hw
      · exact le_refl _
      · have := hlb w hw
        rw [hnext] at this
        omega
  | .deleteWL i :: rest, s => by
    obtain ⟨hp, hlb⟩ := createdWLs_ids rest (runOp s (.deleteWL i))
    exact ⟨hp, fun w hw => le_trans (runOp_next_wl_mono s _) (hlb w hw)⟩
  | .upsertBS n :: rest, s => by
    obtain ⟨hp, hlb⟩ := createdWLs_ids rest (runOp s (.upsertBS n))
    exact ⟨hp, fun w hw => le_trans (runOp_next_wl_mono s _) (hlb w hw)⟩
  | .deleteBS i :: rest, s => by
    obtain ⟨hp, hlb⟩ := createdWLs_ids rest (runOp s (.deleteBS i))
    exact ⟨hp, fun w hw => le_trans (runOp_next_wl_mono s _) (hlb w hw)⟩

/-- The ids assigned by `createWL` calls are exactly the ids of the created
records, in order. -/
theorem assignedWLIds_eq : ∀ (ops : List Op) (s : AppData × FileState),
    assignedWLIds s ops = (createdWLs s ops).map WorkLog.id
  | [], _ => rfl
  | .createWL n :: rest, s => by
    rw [assignedWLIds, createdWLs, List.map_cons, assignedWLIds_eq rest]
    rfl
  | .deleteWL i :: rest, s => by
    rw [assignedWLIds, createdWLs, assignedWLIds_eq rest]
  | .upsertBS n :: rest, s => by
    rw [assignedWLIds, createdWLs, assignedWLIds_eq rest]
  | .deleteBS i :: rest, s => by
    rw [assignedWLIds, createdWLs, assignedWLIds_eq rest]

/-- The snapshot ids assigned by the inserting upserts of a run strictly
increase and stay at or above the snapshot counter at the start. -/
theorem assignedBSIds_facts : ∀ (ops : List Op) (s : AppData × FileState),
    (assignedBSIds s ops).Pairwise (· < ·) ∧
    ∀ i ∈ assignedBSIds s ops, s.1.next_snapshot_id ≤ i
  | [], _ => ⟨List.Pairwise.nil, fun _ hi => absurd hi (List.not_mem_nil _)⟩
  | .createWL n :: rest, s => by
    obtain ⟨hp, hlb⟩ := assignedBSIds_facts rest (runOp s (.createWL n))
    exact ⟨hp, fun i hi => le_trans (runOp_next_bs_mono s _) (hlb i hi)⟩
  | .deleteWL j :: rest, s => by
    obtain ⟨hp, hlb⟩ := assignedBSIds_facts rest (runOp s (.deleteWL j))
    exact ⟨hp, fun i hi => le_trans (runOp_next_bs_mono s _) (hlb i hi)⟩
  | .upsertBS n :: rest, s => by
    obtain ⟨hp, hlb⟩ := assignedBSIds_facts rest (runOp s (.upsertBS n))
    rw [assignedBSIds]
    split
    · exact ⟨hp, fun i hi => le_trans (runOp_next_bs_mono s _) (hlb i hi)⟩
    · rename_i hcond
      have hnext : (runOp s (.upsertBS n)).1.next_snapshot_id = s.1.next_snapshot_id + 1 := by
        show (create_balance_snapshot s n).2.1.next_snapshot_id = _
        simp only [create_balance_snapshot]
        rw [if_neg hcond]
      constructor
      · refine List.pairwise_cons.mpr ⟨?_, hp⟩
        intro i hi
        have := hlb i hi
        rw [hnext] at this
        show s.1.next_snapshot_id < i
        omega
      · intro i hi
        rcases List.mem_cons.mp hi with rfl | hi
        · exact le_refl _
        · have := hlb i hi
          rw [hnext] at this
          omega
  | .deleteBS j :: rest, s => by
    obtain ⟨hp, hlb⟩ := assignedBSIds_facts rest (runOp s (.deleteBS j))
    exact ⟨hp, fun i hi => le_trans (runOp_next_bs_mono s _) (hlb i hi)⟩

/-- The work-log ids assigned by the creates of a run strictly increase and
stay at or above the work-log counter at the start. -/
theorem assignedWLIds_facts (ops : List Op) (s : AppData × FileState) :
    (assignedWLIds s ops).Pairwise (· < ·) ∧
    ∀ i ∈ assignedWLIds s ops, s.1.next_work_log_id ≤ i := by
  obtain ⟨hp, hlb⟩ := createdWLs_ids ops s
  rw [assignedWLIds_eq]
  constructor
  · exact (List.pairwise_map).mpr hp
  · intro i hi
    rcases List.mem_map.mp hi with ⟨w, hw, rfl⟩
    exact hlb w hw

/-- Two strictly `f`-increasing lists with the first's elements all in the
second make the first a sublist (subsequence) of the second. -/
theorem sublist_of_pairwise_subset {α : Type} (f : α → Int) :
    ∀ (l₂ l₁ : List α), l₁.Pairwise (fun a b => f a < f b) →
      l₂.Pairwise (fun a b => f a < f b) → (∀ x, x ∈ l₁ → x ∈ l₂) → List.Sublist l₁ l₂
  | _, [], _, _, _ => List.nil_sublist _
  | [], a :: t₁, _, _, hsub => absurd (hsub a (List.mem_cons_self a t₁)) (List.not_mem_nil a)
  | b :: t₂, a :: t₁, hp₁, hp₂, hsub => by
    rcases List.pairwise_cons.mp hp₁ with ⟨ha₁, ht₁⟩
    rcases List.pairwise_cons.mp hp₂ with ⟨hb₂, ht₂⟩
    by_cases hab : a = b
    · subst hab
      refine List.Sublist.cons₂ a (sublist_of_pairwise_subset f t₂ t₁ ht₁ ht₂ ?_)
      intro x hx
      rcases List.mem_cons.mp (hsub x (List.mem_cons_of_mem a hx)) with rfl | hx₂
      · exact absurd (ha₁ x hx) (lt_irrefl (f x))
      · exact hx₂
    · have hat₂ : a ∈ t₂ := by
        rcases List.mem_cons.mp (hsub a (List.mem_cons_self a t₁)) with h | h
        · exact absurd h hab
        · exact h
      refine List.Sublist.cons b (sublist_of_pairwise_subset f t₂ (a :: t₁) hp₁ ht₂ ?_)
      intro x hx
      have hbf : f b < f a := hb₂ a hat₂
      have hfa : f a ≤ f x := by
        rcases List.mem_cons.mp hx with rfl | hx'
        · exact le_refl _
        · exact le_of_lt (ha₁ x hx')
      rcases List.mem_cons.mp (hsub x hx) with rfl | h
      · exact absurd (lt_of_lt_of_le hbf hfa) (lt_irrefl _)
      · exact h

/-! ### Facts about the balance upsert -/

/-- The field overwrite applied by the upsert's in-place branch. -/
def applyNBS (ns : NewBalanceSnapshot) (b : BalanceSnapshot) : BalanceSnapshot :=
  { b with
    checking := ns.checking
    credit_available := ns.credit_available
    credit_limit := ns.credit_limit
    personal_debt := ns.personal_debt
    note := ns.note }

/-- The record the upsert's insert branch builds. -/
def newBS (d : AppData) (n : NewBalanceSnapshot) : BalanceSnapshot :=
  { id := d.next_snapshot_id
    date := n.date
    checking := n.checking
    credit_available := n.credit_available
    credit_limit := n.credit_limit
    personal_debt := n.personal_debt
    note := n.note }

theorem any_date_iff (l : List BalanceSnapshot) (d : String) :
    (l.any (fun b => b.date == d)) = true ↔ ∃ b ∈ l, b.date = d := by
  simp [List.any_eq_true]

theorem create_balance_snapshot_found (s : AppData × FileState) (n : NewBalanceSnapshot)
    (h : (s.1.balance_snapshots.any (fun b => b.date == n.date)) = true) :
    (create_balance_snapshot s n).2.1.balance_snapshots =
        overwriteSnapshot n s.1.balance_snapshots ∧
      (create_balance_snapshot s n).2.1.next_snapshot_id = s.1.next_snapshot_id := by
  simp only [create_balance_snapshot]
  rw [if_pos h]
  exact ⟨rfl, rfl⟩

theorem create_balance_snapshot_insert (s : AppData × FileState) (n : NewBalanceSnapshot)
    (h : (s.1.balance_snapshots.any (fun b => b.date == n.date)) = false) :
    (create_balance_snapshot s n).2.1.balance_snapshots =
        sortByDate BalanceSnapshot.date (s.1.balance_snapshots ++ [newBS s.1 n]) ∧
      (create_balance_snapshot s n).2.1.next_snapshot_id = s.1.next_snapshot_id + 1 := by
  simp only [create_balance_snapshot]
  rw [if_neg (by simp [h])]
  exact ⟨rfl, rfl⟩

theorem overwriteSnapshot_length (ns : NewBalanceSnapshot) :
    ∀ l, (overwriteSnapshot ns l).length = l.length
  | [] => rfl
  | b :: rest => by
    rw [overwriteSnapshot]
    split
    · simp
    · simp [overwriteSnapshot_length ns rest]

theorem overwriteSnapshot_getElem_other (ns : NewBalanceSnapshot) :
    ∀ (l : List BalanceSnapshot) (k : Nat),
      k ≠ l.findIdx (fun b => b.date == ns.date) →
      (overwriteSnapshot ns l)[k]? = l[k]?
  | [], _, _ => rfl
  | b :: rest, k, hk => by
    rw [overwriteSnapshot]
    by_cases hb : b.date = ns.date
    · rw [if_pos hb]
      rw [List.findIdx_cons] at hk
      simp only [hb, beq_self_eq_true, cond_true] at hk
      cases k with
      | zero => exact absurd rfl hk
      | succ m => simp
    · rw [if_neg hb]
      rw [List.findIdx_cons] at hk
      have hpb : (b.date == ns.date) = false := by simp [hb]
      rw [hpb, cond_false] at hk
      cases k with
      | zero => simp
      | succ m =>
        simp only [List.getElem?_cons_succ]
        exact overwriteSnapshot_getElem_other ns rest m (by omega)

theorem overwriteSnapshot_getElem_found (ns : NewBalanceSnapshot) :
    ∀ l : List BalanceSnapshot, (∃ b ∈ l, b.date = ns.date) →
      (overwriteSnapshot ns l)[l.findIdx (fun b => b.date == ns.date)]? =
        (l[l.findIdx (fun b => b.date == ns.date)]?).map (applyNBS ns)
  | [], hex => by simp at hex
  | b :: rest, hex => by
    rw [overwriteSnapshot]
    by_cases hb : b.date = ns.date
    · rw [if_pos hb]
      have hpbt : (b.date == ns.date) = true := by simp [hb]
      simp only [List.findIdx_cons, hpbt, cond_true]
      simp [applyNBS]
    · rw [if_neg hb]
      have hpb : (b.date == ns.date) = false := by simp [hb]
      simp only [List.findIdx_cons, hpb, cond_false, List.getElem?_cons_succ]
      apply overwriteSnapshot_getElem_found ns rest
      rcases hex with ⟨c, hc, hcd⟩
      rcases List.mem_cons.mp hc with rfl | hc
      · exact absurd hcd hb
      · exact ⟨c, hc, hcd⟩

/-! ### Sample data for concrete witnesses -/

/-- A sample work log. -/
def sampleWL (i : Int) (d : String) : WorkLog :=
  ⟨i, d, "alborn", ⟨0⟩, ⟨0⟩, ⟨0⟩, false⟩

/-- A sample create-work-log request body. -/
def sampleNW (d : String) : NewWorkLog :=
  ⟨d, "alborn", ⟨0⟩, ⟨0⟩, ⟨0⟩, false⟩

/-- A sample balance snapshot. -/
def sampleBS (i : Int) (d : String) : BalanceSnapshot :=
  ⟨i, d, ⟨0⟩, ⟨0⟩, ⟨0⟩, ⟨0⟩, "x"⟩

/-- A sample upsert request body. -/
def sampleNBS (d : String) : NewBalanceSnapshot :=
  ⟨d, ⟨250⟩, ⟨1⟩, ⟨2⟩, ⟨3⟩, "y"⟩

/-- A concrete store with work logs 1, 2, 3 and balance snapshot 5. -/
def store123 : AppData × FileState :=
  ({ jobs := defaultJobs
     work_logs := [sampleWL 1 ("2024-01-01"), sampleWL 2 ("2024-01-02"), sampleWL 3 ("2024-01-03")]
     balance_snapshots := [sampleBS 5 ("2024-02-01")]
     next_work_log_id := 4
     next_snapshot_id := 6 }, .missing)

/-! ### The claims -/

/-- Claim C4: every mutating operation (`create_work_log`,
`create_balance_snapshot`, and each delete that removes an entry) leaves the
persisted file equal to `AppData::save` of the post-mutation store, i.e. the
serialization of the current in-memory dataset, before returning (the
swallowed-write-failure caveat is outside the model, which treats the write
as succeeding). -/
theorem mutation_writes_through (s : AppData × FileState) (n : NewWorkLog)
    (nb : NewBalanceSnapshot) (iW iB : Int) :
    (create_work_log s n).2.2 = AppData.save (create_work_log s n).2.1 ∧
    (create_balance_snapshot s nb).2.2 = AppData.save (create_balance_snapshot s nb).2.1 ∧
    ((delete_work_log s iW).1.2.ok = true →
      (delete_work_log s iW).2.2 = AppData.save (delete_work_log s iW).2.1) ∧
    ((delete_balance_snapshot s iB).1.2.ok = true →
      (delete_balance_snapshot s iB).2.2 = AppData.save (delete_balance_snapshot s iB).2.1) := by
  refine ⟨rfl, rfl, ?_, ?_⟩
  · simp only [delete_work_log]
    split
    · intro h
      simp at h
    · intro _
      rfl
  · simp only [delete_balance_snapshot]
    split
    · intro h
      simp at h
    · intro _
      rfl

/-- Witness for C4: on a concrete store both deletes succeed and the file
afterwards equals the serialization of the mutated store. -/
theorem mutation_writes_through_witness :
    (delete_work_log store123 1).1.2.ok = true ∧
    (delete_work_log store123 1).2.2 = AppData.save (delete_work_log store123 1).2.1 ∧
    (delete_balance_snapshot store123 5).1.2.ok = true ∧
    (delete_balance_snapshot store123 5).2.2 =
      AppData.save (delete_balance_snapshot store123 5).2.1 :=
  ⟨by decide,
   (mutation_writes_through store123 (sampleNW ("2024-01-01")) (sampleNBS ("2024-02-01"))
      1 5).2.2.1 (by decide),
   by decide,
   (mutation_writes_through store123 (sampleNW ("2024-01-01")) (sampleNBS ("2024-02-01"))
      1 5).2.2.2 (by decide)⟩

/-- Claim C5: deleting an id absent from the corresponding collection answers
404 `{ok:false}` and returns with the store and the persisted file both
exactly unchanged (`save` is not invoked: the returned file state is the
input file state). -/
theorem delete_not_found_spec (s : AppData × FileState) (iW iB : Int)
    (hw : ∀ w ∈ s.1.work_logs, w.id ≠ iW)
    (hb : ∀ b ∈ s.1.balance_snapshots, b.id ≠ iB) :
    delete_work_log s iW = ((.NOT_FOUND, ⟨false⟩), s.1, s.2) ∧
    delete_balance_snapshot s iB = ((.NOT_FOUND, ⟨false⟩), s.1, s.2) := by
  constructor
  · have hfilter : s.1.work_logs.filter (fun w => w.id != iW) = s.1.work_logs :=
      List.filter_eq_self.mpr (fun w hwl => by simpa using hw w hwl)
    simp only [delete_work_log]
    rw [if_pos (by rw [hfilter])]
  · have hfilter : s.1.balance_snapshots.filter (fun b => b.id != iB) =
        s.1.balance_snapshots :=
      List.filter_eq_self.mpr (fun b hbl => by simpa using hb b hbl)
    simp only [delete_balance_snapshot]
    rw [if_pos (by rw [hfilter])]

/-- Witness for C5: `deleteWorkLog(999)` and `deleteBalanceSnapshot(999)` on
the store with ids 1, 2, 3 / 5 answer not-found and change nothing. -/
theorem delete_not_found_witness :
    delete_work_log store123 999 = ((.NOT_FOUND, ⟨false⟩), store123.1, store123.2) ∧
    delete_balance_snapshot store123 999 = ((.NOT_FOUND, ⟨false⟩), store123.1, store123.2) :=
  delete_not_found_spec store123 999 999 (by decide) (by decide)

/-- Claim C6: `AppData::load` is total and fail-soft: for a missing file, an
unreadable file, a non-JSON file, or JSON that does not deserialize as the
`FinanceData` schema, it returns the store with empty work logs, empty
balance snapshots, the fixed two-job catalog, and both counters at 1. -/
theorem load_failSoft (file : FileState)
    (h : file = .missing ∨ file = .unreadable ∨ file = .invalidText ∨
      ∃ j, file = .jsonText j ∧ decFinanceData j = none) :
    AppData.load file =
      { jobs := defaultJobs
        work_logs := []
        balance_snapshots := []
        next_work_log_id := 1
        next_snapshot_id := 1 } := by
  rcases h with rfl | rfl | rfl | ⟨j, rfl, hdec⟩
  · rfl
  · rfl
  · rfl
  · simp [AppData.load, parsedLists, hdec]

/-- Witness for C6: a JSON document of the wrong shape loads as the empty
dataset with the fixed catalog. -/
theorem load_failSoft_witness :
    AppData.load (.jsonText (.str "nope")) =
      { jobs := defaultJobs
        work_logs := []
        balance_snapshots := []
        next_work_log_id := 1
        next_snapshot_id := 1 } :=
  load_failSoft _ (Or.inr (Or.inr (Or.inr ⟨.str "nope", rfl, rfl⟩)))

/-- Claim C7: `save` followed by `load` reproduces the work logs and balance
snapshots exactly; the job catalog is not compared (it is replaced by the
fixed constant on load). -/
theorem save_load_roundtrip (d : AppData) :
    (AppData.load (AppData.save d)).work_logs = d.work_logs ∧
    (AppData.load (AppData.save d)).balance_snapshots = d.balance_snapshots ∧
    (AppData.load (AppData.save d)).jobs = defaultJobs := by
  have h := decFinanceData_encFinanceData d.financeData
  simp only [AppData.financeData] at h
  refine ⟨?_, ?_, rfl⟩ <;>
    simp [AppData.load, AppData.save, parsedLists, h, AppData.financeData]

/-- Claim C9: the weather endpoint answers 503 with a zeroed reading on a
network failure or an unparseable body, and 200 with the extracted reading
on any JSON body; the handler is a total function of the upstream outcome. -/
theorem get_weather_spec (ops : FloatOps) (j : Json) :
    get_weather ops .netError = (.SERVICE_UNAVAILABLE, ⟨0, 0, 0⟩) ∧
    get_weather ops .badBody = (.SERVICE_UNAVAILABLE, ⟨0, 0, 0⟩) ∧
    get_weather ops (.body j) = (.OK, extractWeather ops j) ∧
    StatusCode.SERVICE_UNAVAILABLE.toCode = 503 ∧
    StatusCode.OK.toCode = 200 :=
  ⟨rfl, rfl, rfl, rfl, rfl⟩

/-- Claim C10: a successfully deserialized file is installed verbatim: the
loaded store's collections are exactly the deserialized sequences and
`get_data` exposes them unchanged, with no re-sorting, deduplication or id
checking. -/
theorem load_no_normalization (j : Json) (d : FinanceData)
    (h : decFinanceData j = some d) :
    (AppData.load (.jsonText j)).work_logs = d.work_logs ∧
    (AppData.load (.jsonText j)).balance_snapshots = d.balance_snapshots ∧
    get_data (AppData.load (.jsonText j)) =
      { jobs := defaultJobs
        work_logs := d.work_logs
        balance_snapshots := d.balance_snapshots } := by
  refine ⟨?_, ?_, ?_⟩ <;> simp [AppData.load, parsedLists, h, get_data]

/-- A file that violates the ordering, date-uniqueness and id-uniqueness
invariants (used to witness C10). -/
def badData : FinanceData :=
  { jobs := []
    work_logs := [sampleWL 5 ("2024-02-02"), sampleWL 5 ("2024-01-01")]
    balance_snapshots := [sampleBS 7 ("2024-03-03"), sampleBS 7 ("2024-03-03")] }

/-- Witness for C10: the invariant-violating file is exposed verbatim by the
loaded store. -/
theorem load_no_normalization_witness :
    decFinanceData (encFinanceData badData) = some badData ∧
    (AppData.load (.jsonText (encFinanceData badData))).work_logs =
      [sampleWL 5 ("2024-02-02"), sampleWL 5 ("2024-01-01")] ∧
    (AppData.load (.jsonText (encFinanceData badData))).balance_snapshots =
      [sampleBS 7 ("2024-03-03"), sampleBS 7 ("2024-03-03")] :=
  ⟨decFinanceData_encFinanceData badData,
   (load_no_normalization _ badData (decFinanceData_encFinanceData badData)).1,
   (load_no_normalization _ badData (decFinanceData_encFinanceData badData)).2.1⟩

/-- The snapshot collection after an upsert (shorthand for statements). -/
def upsertResult (s : AppData × FileState) (ns : NewBalanceSnapshot) : List BalanceSnapshot :=
  (create_balance_snapshot s ns).2.1.balance_snapshots

/-- The index of the first snapshot whose date matches the upsert input. -/
def matchIdx (l : List BalanceSnapshot) (ns : NewBalanceSnapshot) : Nat :=
  l.findIdx (fun b => b.date == ns.date)

/-- Claim C1: the balance upsert.  With a date already present, the matching
snapshot (first match) is overwritten in place — `applyNBS` changes only the
five value fields, keeping id and date — at its existing position, all other
positions and the length unchanged.  With a fresh date, a record carrying
`next_snapshot_id` is inserted: the result is a permutation of the old
collection plus the new record, sorted ascending by date, and under the id
invariant the new id differs from every existing one. -/
theorem upsertBalanceSnapshot_spec (s : AppData × FileState) (ns : NewBalanceSnapshot) :
    (∀ b, (applyNBS ns b).id = b.id ∧ (applyNBS ns b).date = b.date) ∧
    ((∃ b ∈ s.1.balance_snapshots, b.date = ns.date) →
      (upsertResult s ns).length = s.1.balance_snapshots.length ∧
      (upsertResult s ns)[matchIdx s.1.balance_snapshots ns]? =
        (s.1.balance_snapshots[matchIdx s.1.balance_snapshots ns]?).map (applyNBS ns) ∧
      ∀ k, k ≠ matchIdx s.1.balance_snapshots ns →
        (upsertResult s ns)[k]? = s.1.balance_snapshots[k]?) ∧
    ((∀ b ∈ s.1.balance_snapshots, b.date ≠ ns.date) →
      (upsertResult s ns).length = s.1.balance_snapshots.length + 1 ∧
      List.Perm (upsertResult s ns) (s.1.balance_snapshots ++ [newBS s.1 ns]) ∧
      (upsertResult s ns).Pairwise (keyLe BalanceSnapshot.date) ∧
      (newBS s.1 ns).id = s.1.next_snapshot_id ∧
      ((∀ b ∈ s.1.balance_snapshots, b.id < s.1.next_snapshot_id) →
        ∀ b ∈ s.1.balance_snapshots, b.id ≠ (newBS s.1 ns).id)) := by
  refine ⟨fun b => ⟨rfl, rfl⟩, ?_, ?_⟩
  · intro hex
    have hany := (any_date_iff s.1.balance_snapshots ns.date).mpr hex
    obtain ⟨hbs, _⟩ := create_balance_snapshot_found s ns hany
    simp only [upsertResult, matchIdx, hbs]
    exact ⟨overwriteSnapshot_length ns _,
      overwriteSnapshot_getElem_found ns _ hex,
      fun k hk => overwriteSnapshot_getElem_other ns _ k hk⟩
  · intro hno
    have hany : (s.1.balance_snapshots.any (fun b => b.date == ns.date)) = false := by
      rw [Bool.eq_false_iff]
      intro hc
      rcases (any_date_iff s.1.balance_snapshots ns.date).mp hc with ⟨b, hb, hbd⟩
      exact hno b hb hbd
    obtain ⟨hbs, _⟩ := create_balance_snapshot_insert s ns hany
    simp only [upsertResult, hbs]
    refine ⟨?_, ?_, ?_, rfl, ?_⟩
    · simp [sortByDate, List.length_insertionSort]
    · exact List.perm_insertionSort _ _
    · exact List.sorted_insertionSort (keyLe BalanceSnapshot.date) _
    · intro hlt b hb
      exact ne_of_lt (hlt b hb)

/-- A store with one snapshot (id 5, date 2024-02-01), for witnessing C1. -/
def upsertStore : AppData × FileState :=
  ({ jobs := defaultJobs
     work_logs := []
     balance_snapshots := [sampleBS 5 ("2024-02-01")]
     next_work_log_id := 1
     next_snapshot_id := 6 }, .missing)

/-- Witness for C1: upserting the present date keeps the length; upserting a
fresh date grows the collection by one with a fresh id taken from the
counter. -/
theorem upsertBalanceSnapshot_witness :
    (upsertResult upsertStore (sampleNBS ("2024-02-01"))).length =
      upsertStore.1.balance_snapshots.length ∧
    (upsertResult upsertStore (sampleNBS ("2024-03-01"))).length =
      upsertStore.1.balance_snapshots.length + 1 ∧
    (newBS upsertStore.1 (sampleNBS ("2024-03-01"))).id = upsertStore.1.next_snapshot_id ∧
    (sampleBS 5 ("2024-02-01")).id ≠ (newBS upsertStore.1 (sampleNBS ("2024-03-01"))).id :=
  ⟨((upsertBalanceSnapshot_spec upsertStore (sampleNBS ("2024-02-01"))).2.1 (by decide)).1,
   ((upsertBalanceSnapshot_spec upsertStore (sampleNBS ("2024-03-01"))).2.2 (by decide)).1,
   ((upsertBalanceSnapshot_spec upsertStore (sampleNBS ("2024-03-01"))).2.2 (by decide)).2.2.2.1,
   ((upsertBalanceSnapshot_spec upsertStore (sampleNBS ("2024-03-01"))).2.2
       (by decide)).2.2.2.2 (by decide) (sampleBS 5 ("2024-02-01")) (by decide)⟩

/-- Claim C2: after any sequence of mutating calls starting from the empty
store, the work-log collection is sorted non-decreasing by date, and for
each date the work logs carrying it form a subsequence of the created
records of that date in creation order (creates append, the stable sort
keeps equal dates in order, deletes only remove). -/
theorem workLogs_sorted_stable (ops : List Op) :
    (get_data (run (AppData.load .missing, .missing) ops).1).work_logs.Pairwise
      (fun a b => strLe a.date b.date = true) ∧
    ∀ d : String,
      List.Sublist
        ((get_data (run (AppData.load .missing, .missing) ops).1).work_logs.filter
          (fun w => w.date == d))
        ((createdWLs (AppData.load .missing, .missing) ops).filter (fun w => w.date == d)) := by
  have hshape : WLShape (AppData.load .missing, FileState.missing).1 :=
    ⟨List.Pairwise.nil, (load_id_lt_next .missing).1⟩
  have hfinal := run_WLShape ops (AppData.load .missing, .missing) hshape
  constructor
  · exact hfinal.1.imp keyLex_le
  · intro d
    apply sublist_of_pairwise_subset WorkLog.id
    · refine List.Pairwise.imp_of_mem ?_ (hfinal.1.filter (fun w => w.date == d))
      intro a b ha hb hlex
      have had : a.date = d := by simpa using (List.mem_filter.mp ha).2
      have hbd : b.date = d := by simpa using (List.mem_filter.mp hb).2
      exact keyLex_date_imp_id hlex (had.trans hbd.symm)
    · exact ((createdWLs_ids ops (AppData.load .missing, .missing)).1).filter _
    · intro x hx
      rcases List.mem_filter.mp hx with ⟨hxm, hxd⟩
      rcases run_mem_created ops (AppData.load .missing, .missing) x hxm with h | h
      · exact absurd h (List.not_mem_nil x)
      · exact List.mem_filter.mpr ⟨h, hxd⟩

/-- The identifier-allocator contract in the spec's words: the next id is
`1 + max(existing ids)`, or `1` if the collection is empty. -/
def specNextId (l : List WorkLog) : Int :=
  match (l.map WorkLog.id).max? with
  | none => 1
  | some m => 1 + m

theorem load_next_eq_specNextId (file : FileState) :
    (AppData.load file).next_work_log_id = specNextId (AppData.load file).work_logs := by
  show ((parsedLists file).1.map WorkLog.id).max?.getD 0 + 1 = specNextId (parsedLists file).1
  rw [specNextId]
  cases h : ((parsedLists file).1.map WorkLog.id).max? with
  | none => simp
  | some m =>
    simp only [Option.getD_some]
    omega

/-- Claim C3: across any sequence of `createWorkLog` calls in one run, the
assigned ids are strictly increasing in call order (hence pairwise
distinct), and the first id equals the spec's allocator contract applied to
the loaded collection: `1 + max(existing ids)`, or `1` when it is empty. -/
theorem createWorkLog_ids (fs : FileState) (inputs : List NewWorkLog) :
    (assignedWLIds (AppData.load fs, fs) (inputs.map Op.createWL)).Pairwise (· < ·) ∧
    (assignedWLIds (AppData.load fs, fs) (inputs.map Op.createWL)).Nodup ∧
    (inputs ≠ [] →
      (assignedWLIds (AppData.load fs, fs) (inputs.map Op.createWL)).head? =
        some (specNextId (AppData.load fs).work_logs)) := by
  obtain ⟨hp, _⟩ := assignedWLIds_facts (inputs.map Op.createWL) (AppData.load fs, fs)
  refine ⟨hp, hp.imp ne_of_lt, ?_⟩
  intro hne
  cases inputs with
  | nil => exact absurd rfl hne
  | cons n rest =>
    simp only [List.map_cons, assignedWLIds, List.head?_cons]
    exact congrArg some (load_next_eq_specNextId fs)

/-- Witness for C3: two creates on a fresh store assign ids starting at the
allocator value. -/
theorem createWorkLog_ids_witness :
    (assignedWLIds (AppData.load .missing, .missing)
        ([sampleNW ("2024-01-02"), sampleNW ("2024-01-01")].map Op.createWL)).head? =
      some (specNextId (AppData.load FileState.missing).work_logs) :=
  (createWorkLog_ids .missing [sampleNW ("2024-01-02"), sampleNW ("2024-01-01")]).2.2
    (by decide)

/-- The run used to refute C8: create ids 1 and 2, delete 2 (which saves),
then restart from the saved file. -/
def restartOps : List Op :=
  [.createWL (sampleNW ("2024-01-01")), .createWL (sampleNW ("2024-01-01")), .deleteWL 2]

/-- The state (store and persisted file) after `restartOps`. -/
def preRestart : AppData × FileState :=
  run (AppData.load .missing, .missing) restartOps

/-- The state after reloading from the persisted file, as a process restart
does. -/
def postRestart : AppData × FileState :=
  (AppData.load preRestart.2, preRestart.2)

/-- Counterexample to claim C8: id 2 is assigned, deleted, and the store is
saved; after a restart that reloads the persisted file, the very next create
assigns id 2 again, because the counter is recomputed as
`1 + max(surviving ids)` and the deleted id was the maximum. -/
theorem id_reuse_after_restart :
    assignedWLIds (AppData.load .missing, .missing) restartOps = [1, 2] ∧
    preRestart.1.work_logs.map WorkLog.id = [1] ∧
    assignedWLIds postRestart [.createWL (sampleNW ("2024-01-03"))] = [2] := by
  refine ⟨?_, ?_, ?_⟩ <;> decide

/-- Amended claim C8: within a single process run starting from a loaded
state, ids are never reused: the work-log ids assigned by creates are
pairwise distinct (so no id assigned and later deleted in the run is ever
assigned again in that run), likewise the snapshot ids assigned by inserting
upserts, and no assigned id collides with an id present at load time.
Across a save/restart boundary the guarantee does not hold (see the
counterexample): reloading recomputes the counter from surviving ids only. -/
theorem ids_not_reused_within_run (fs : FileState) (ops : List Op) :
    (assignedWLIds (AppData.load fs, fs) ops).Pairwise (· ≠ ·) ∧
    (assignedBSIds (AppData.load fs, fs) ops).Pairwise (· ≠ ·) ∧
    (∀ i ∈ assignedWLIds (AppData.load fs, fs) ops,
      ∀ w ∈ (AppData.load fs).work_logs, w.id ≠ i) ∧
    (∀ i ∈ assignedBSIds (AppData.load fs, fs) ops,
      ∀ b ∈ (AppData.load fs).balance_snapshots, b.id ≠ i) := by
  obtain ⟨hwp, hwlb⟩ := assignedWLIds_facts ops (AppData.load fs, fs)
  obtain ⟨hbp, hblb⟩ := assignedBSIds_facts ops (AppData.load fs, fs)
  refine ⟨hwp.imp ne_of_lt, hbp.imp ne_of_lt, ?_, ?_⟩
  · intro i hi w hw
    have h1 := (load_id_lt_next fs).1 w hw
    have h2 : (AppData.load fs).next_work_log_id ≤ i := hwlb i hi
    omega
  · intro i hi b hb
    have h1 := (load_id_lt_next fs).2 b hb
    have h2 : (AppData.load fs).next_snapshot_id ≤ i := hblb i hi
    omega

/-- A persisted file already carrying a work log (id 1) and a snapshot
(id 3), for witnessing the amended C8. -/
def loadedFile : FileState :=
  .jsonText (encFinanceData
    ⟨[], [sampleWL 1 ("2024-01-01")], [sampleBS 3 ("2024-02-01")]⟩)

/-- Witness for the amended C8: on a loaded store, the ids assigned by a run
with an interleaved delete are pairwise distinct, and the loaded work log's
id differs from the first assigned id. -/
theorem ids_not_reused_witness :
    (assignedWLIds (AppData.load loadedFile, loadedFile)
        [.createWL (sampleNW ("2024-01-02")), .deleteWL 2,
         .createWL (sampleNW ("2024-01-03"))]).Pairwise (· ≠ ·) ∧
    (sampleWL 1 ("2024-01-01")).id ≠ 2 :=
  ⟨(ids_not_reused_within_run loadedFile
      [.createWL (sampleNW ("2024-01-02")), .deleteWL 2,
       .createWL (sampleNW ("2024-01-03"))]).1,
   (ids_not_reused_within_run loadedFile
      [.createWL (sampleNW ("2024-01-02")), .deleteWL 2,
       .createWL (sampleNW ("2024-01-03"))]).2.2.1 2 (by decide)
     (sampleWL 1 ("2024-01-01")) (by decide)⟩
